import Mathlib

/-!
Verification development for the CryptoQuantBot signal-generation and
backtest-simulation engine, and for two frontend state machines
(WebSocket reconnection policy, price alerts).

The engine (Indicator Calculator, Signal Generator, Risk Manager,
Backtest Simulator, Performance Analyzer) is modelled from the spec,
since the backend implementation is not part of the available sources;
the design document src/docs/crypto_trading_app_design.md and the
frontend type declarations corroborate the data model and the signal
rules. The WebSocket reconnection and price alert models are translated
from src/frontend/src/services/websocket.ts and
src/frontend/src/components/Market/MarketOverview.tsx.

All prices and balances are modelled as rationals; the host language
square-root routine is an explicit parameter `sq`.
-/

/-- Modelled from the spec: a price bar.  Field names follow the
KLineData declaration in the frontend types file. -/
structure Candle where
  symbol : String
  timeframe : String
  open_time : Int
  close_time : Int
  open_price : Rat
  high_price : Rat
  low_price : Rat
  close_price : Rat
  volume : Rat
deriving DecidableEq

/-- Modelled from the spec: strategy configuration. -/
structure StrategyConfig where
  macd_fast : Nat
  macd_slow : Nat
  macd_signal_period : Nat
  rsi_period : Nat
  rsi_oversold : Rat
  rsi_overbought : Rat
  bb_period : Nat
  bb_std_dev : Rat
  stop_loss_pct : Rat
  take_profit_pct : Rat
  max_position_size : Rat
deriving DecidableEq

/-- Modelled from the spec: the configuration invariant of section 3. -/
def StrategyConfig.valid (cfg : StrategyConfig) : Prop :=
  cfg.macd_fast < cfg.macd_slow ∧ 2 ≤ cfg.macd_fast ∧ 2 ≤ cfg.macd_signal_period ∧
  2 ≤ cfg.rsi_period ∧ 2 ≤ cfg.bb_period ∧
  0 < cfg.rsi_oversold ∧ cfg.rsi_oversold < cfg.rsi_overbought ∧ cfg.rsi_overbought < 100 ∧
  0 < cfg.bb_std_dev

instance (cfg : StrategyConfig) : Decidable cfg.valid := by
  unfold StrategyConfig.valid; infer_instance

/-- The close prices of a candle sequence, in order. -/
def closesOf (c : List Candle) : List Rat := c.map Candle.close_price

/-- Indexed access into a price series; out-of-range reads give 0 and are
never exposed past the warm-up flags. -/
def priceAt (xs : List Rat) (i : Nat) : Rat := xs.getD i 0

/-- Modelled from the spec: EMA smoothing constant `k = 2/(period+1)`. -/
def emaK (p : Nat) : Rat := 2 / ((p : Rat) + 1)

/-- Modelled from the spec: the EMA bootstrap seed, the simple average of
the first `p` values of the series starting at `start`. -/
def emaSeed (p start : Nat) (f : Nat → Rat) : Rat :=
  ((List.range p).map (fun j => f (start + j))).sum / (p : Rat)

/-- Modelled from the spec: EMA series over a value series `f` whose
defined region begins at `start`, seeded by the simple average of the
first `p` values and continued by the standard recurrence. -/
def emaSeries (p start : Nat) (f : Nat → Rat) : Nat → Rat
  | 0 => emaSeed p start f
  | i + 1 =>
    if i + 1 ≤ start + p - 1 then emaSeed p start f
    else f (i + 1) * emaK p + emaSeries p start f i * (1 - emaK p)

/-- Modelled from the spec: the seed of Wilder smoothing, the simple mean
of the first `p` moves (indices 1..p). -/
def wilderSeed (p : Nat) (f : Nat → Rat) : Rat :=
  ((List.range p).map (fun j => f (j + 1))).sum / (p : Rat)

/-- Modelled from the spec: Wilder smoothing
`avg = (avg_prev*(period-1) + current)/period` after the seed. -/
def wilder (p : Nat) (f : Nat → Rat) : Nat → Rat
  | 0 => wilderSeed p f
  | i + 1 =>
    if i + 1 ≤ p then wilderSeed p f
    else (wilder p f i * ((p : Rat) - 1) + f (i + 1)) / (p : Rat)

/-- Upward move of the close series at index `i`. -/
def gainAt (xs : List Rat) (i : Nat) : Rat := max (priceAt xs i - priceAt xs (i - 1)) 0

/-- Downward move of the close series at index `i`. -/
def lossAt (xs : List Rat) (i : Nat) : Rat := max (priceAt xs (i - 1) - priceAt xs i) 0

/-- Modelled from the spec: RSI from Wilder average gain and loss, with
the documented degenerate cases (both zero gives 50, zero loss gives 100). -/
def rsiAt (xs : List Rat) (p i : Nat) : Rat :=
  let g := wilder p (gainAt xs) i
  let l := wilder p (lossAt xs) i
  if g = 0 ∧ l = 0 then 50
  else if l = 0 then 100
  else 100 - 100 / (1 + g / l)

/-- The trailing window of `p` values ending at index `i`. -/
def windowAt (xs : List Rat) (p i : Nat) : List Rat := (xs.take (i + 1)).drop (i + 1 - p)

/-- Modelled from the spec: simple moving average over the trailing window. -/
def smaAt (xs : List Rat) (p i : Nat) : Rat := (windowAt xs p i).sum / (p : Rat)

/-- Modelled from the spec: population variance of the trailing window. -/
def varAt (xs : List Rat) (p i : Nat) : Rat :=
  ((windowAt xs p i).map (fun x => (x - smaAt xs p i) ^ 2)).sum / (p : Rat)

/-- Modelled from the spec: MACD line, fast EMA minus slow EMA of closes. -/
def macdLineAt (xs : List Rat) (cfg : StrategyConfig) (i : Nat) : Rat :=
  emaSeries cfg.macd_fast 0 (priceAt xs) i - emaSeries cfg.macd_slow 0 (priceAt xs) i

/-- Modelled from the spec: MACD signal line, the EMA of the MACD line with
the same bootstrap, starting where the MACD line is first defined. -/
def signalLineAt (xs : List Rat) (cfg : StrategyConfig) : Nat → Rat :=
  emaSeries cfg.macd_signal_period (cfg.macd_slow - 1) (macdLineAt xs cfg)

/-- Warm-up boundary of the MACD line. -/
def wMacd (cfg : StrategyConfig) : Nat := cfg.macd_slow - 1

/-- Warm-up boundary of the MACD signal line and histogram. -/
def wSig (cfg : StrategyConfig) : Nat := (cfg.macd_slow - 1) + (cfg.macd_signal_period - 1)

/-- Warm-up boundary of the RSI. -/
def wRsi (cfg : StrategyConfig) : Nat := cfg.rsi_period

/-- Warm-up boundary of the Bollinger Bands. -/
def wBB (cfg : StrategyConfig) : Nat := cfg.bb_period - 1

/-- Modelled from the spec: Bollinger middle band, the SMA of closes. -/
def bbMiddleAt (xs : List Rat) (cfg : StrategyConfig) (i : Nat) : Rat :=
  smaAt xs cfg.bb_period i

/-- Modelled from the spec: Bollinger upper band, middle plus
`bb_std_dev` times the population standard deviation (via `sq`). -/
def bbUpperAt (sq : Rat → Rat) (xs : List Rat) (cfg : StrategyConfig) (i : Nat) : Rat :=
  bbMiddleAt xs cfg i + cfg.bb_std_dev * sq (varAt xs cfg.bb_period i)

/-- Modelled from the spec: Bollinger lower band. -/
def bbLowerAt (sq : Rat → Rat) (xs : List Rat) (cfg : StrategyConfig) (i : Nat) : Rat :=
  bbMiddleAt xs cfg i - cfg.bb_std_dev * sq (varAt xs cfg.bb_period i)

/-- Modelled from the spec: per-candle aligned indicator values; entries
before each warm-up window are flagged `none`. -/
structure IndicatorEntry where
  macd : Option Rat
  macd_signal : Option Rat
  macd_histogram : Option Rat
  rsi : Option Rat
  bb_upper : Option Rat
  bb_middle : Option Rat
  bb_lower : Option Rat
deriving DecidableEq

/-- The all-undefined indicator entry. -/
def emptyEntry : IndicatorEntry := ⟨none, none, none, none, none, none, none⟩

/-- The indicator frame entry at index `i`. -/
def entryAt (sq : Rat → Rat) (xs : List Rat) (cfg : StrategyConfig) (i : Nat) : IndicatorEntry :=
  { macd := if wMacd cfg ≤ i then some (macdLineAt xs cfg i) else none
    macd_signal := if wSig cfg ≤ i then some (signalLineAt xs cfg i) else none
    macd_histogram := if wSig cfg ≤ i then some (macdLineAt xs cfg i - signalLineAt xs cfg i) else none
    rsi := if wRsi cfg ≤ i then some (rsiAt xs cfg.rsi_period i) else none
    bb_upper := if wBB cfg ≤ i then some (bbUpperAt sq xs cfg i) else none
    bb_middle := if wBB cfg ≤ i then some (bbMiddleAt xs cfg i) else none
    bb_lower := if wBB cfg ≤ i then some (bbLowerAt sq xs cfg i) else none }

/-- Modelled from the spec: engine failure taxonomy (the part reachable
from the Indicator Calculator). -/
inductive EngineError
  | insufficientData
deriving DecidableEq

/-- Modelled from the spec: the longest required warm-up window,
`max(macd_slow + macd_signal_period, rsi_period + 1, bb_period)`. -/
def minRequired (cfg : StrategyConfig) : Nat :=
  max (cfg.macd_slow + cfg.macd_signal_period) (max (cfg.rsi_period + 1) cfg.bb_period)

/-- Modelled from the spec: `compute(candles, config) -> IndicatorFrame`,
failing with InsufficientDataError when the candle count is below the
longest required warm-up window. -/
def compute (sq : Rat → Rat) (c : List Candle) (cfg : StrategyConfig) :
    Except EngineError (List IndicatorEntry) :=
  if c.length < minRequired cfg then .error .insufficientData
  else .ok ((List.range c.length).map (entryAt sq (closesOf c) cfg))

/-- A discrete trading decision. -/
inductive SignalType
  | BUY
  | SELL
deriving DecidableEq

/-- Modelled from the spec: an emitted signal record. -/
structure Signal where
  timestamp : Int
  stype : SignalType
  price : Rat
  confidence : Rat
  reason : String
deriving DecidableEq

/-- Frame lookup at index `i` (missing row reads as the empty entry). -/
def entryOf (fr : List IndicatorEntry) (i : Nat) : IndicatorEntry := fr.getD i emptyEntry

/-- MACD value read from a frame, defaulting the flagged region to 0. -/
def macdV (fr : List IndicatorEntry) (i : Nat) : Rat := ((entryOf fr i).macd).getD 0

/-- MACD signal-line value read from a frame. -/
def sigV (fr : List IndicatorEntry) (i : Nat) : Rat := ((entryOf fr i).macd_signal).getD 0

/-- RSI value read from a frame. -/
def rsiV (fr : List IndicatorEntry) (i : Nat) : Rat := ((entryOf fr i).rsi).getD 0

/-- Bollinger upper band read from a frame. -/
def bbUV (fr : List IndicatorEntry) (i : Nat) : Rat := ((entryOf fr i).bb_upper).getD 0

/-- Bollinger lower band read from a frame. -/
def bbLV (fr : List IndicatorEntry) (i : Nat) : Rat := ((entryOf fr i).bb_lower).getD 0

/-- The open time of candle `i`. -/
def tsAt (c : List Candle) (i : Nat) : Int := (c.map Candle.open_time).getD i 0

/-- Modelled from the spec:
`macd[i] > signal[i] AND macd[i-1] <= signal[i-1]`. -/
def macd_bullish_cross (fr : List IndicatorEntry) (i : Nat) : Prop :=
  sigV fr i < macdV fr i ∧ macdV fr (i - 1) ≤ sigV fr (i - 1)

/-- Modelled from the spec:
`macd[i] < signal[i] AND macd[i-1] >= signal[i-1]`. -/
def macd_bearish_cross (fr : List IndicatorEntry) (i : Nat) : Prop :=
  macdV fr i < sigV fr i ∧ sigV fr (i - 1) ≤ macdV fr (i - 1)

/-- Modelled from the spec: `rsi[i] < config.rsi_oversold`. -/
def rsi_oversold_at (cfg : StrategyConfig) (fr : List IndicatorEntry) (i : Nat) : Prop :=
  rsiV fr i < cfg.rsi_oversold

/-- Modelled from the spec: `rsi[i] > config.rsi_overbought`. -/
def rsi_overbought_at (cfg : StrategyConfig) (fr : List IndicatorEntry) (i : Nat) : Prop :=
  cfg.rsi_overbought < rsiV fr i

/-- Modelled from the spec: `close[i] <= bb_lower[i]`. -/
def bb_support_at (xs : List Rat) (fr : List IndicatorEntry) (i : Nat) : Prop :=
  priceAt xs i ≤ bbLV fr i

/-- Modelled from the spec: `close[i] >= bb_upper[i]`. -/
def bb_resistance_at (xs : List Rat) (fr : List IndicatorEntry) (i : Nat) : Prop :=
  bbUV fr i ≤ priceAt xs i

instance (fr : List IndicatorEntry) (i : Nat) : Decidable (macd_bullish_cross fr i) := by
  unfold macd_bullish_cross; infer_instance

instance (fr : List IndicatorEntry) (i : Nat) : Decidable (macd_bearish_cross fr i) := by
  unfold macd_bearish_cross; infer_instance

instance (cfg : StrategyConfig) (fr : List IndicatorEntry) (i : Nat) :
    Decidable (rsi_oversold_at cfg fr i) := by
  unfold rsi_oversold_at; infer_instance

instance (cfg : StrategyConfig) (fr : List IndicatorEntry) (i : Nat) :
    Decidable (rsi_overbought_at cfg fr i) := by
  unfold rsi_overbought_at; infer_instance

instance (xs : List Rat) (fr : List IndicatorEntry) (i : Nat) :
    Decidable (bb_support_at xs fr i) := by
  unfold bb_support_at; infer_instance

instance (xs : List Rat) (fr : List IndicatorEntry) (i : Nat) :
    Decidable (bb_resistance_at xs fr i) := by
  unfold bb_resistance_at; infer_instance

/-- Modelled from the spec:
BUY iff `macd_bullish_cross AND (rsi_oversold OR bb_support)`. -/
def buyCond (cfg : StrategyConfig) (xs : List Rat) (fr : List IndicatorEntry) (i : Nat) : Prop :=
  macd_bullish_cross fr i ∧ (rsi_oversold_at cfg fr i ∨ bb_support_at xs fr i)

/-- Modelled from the spec:
SELL iff `macd_bearish_cross AND (rsi_overbought OR bb_resistance)`. -/
def sellCond (cfg : StrategyConfig) (xs : List Rat) (fr : List IndicatorEntry) (i : Nat) : Prop :=
  macd_bearish_cross fr i ∧ (rsi_overbought_at cfg fr i ∨ bb_resistance_at xs fr i)

instance (cfg : StrategyConfig) (xs : List Rat) (fr : List IndicatorEntry) (i : Nat) :
    Decidable (buyCond cfg xs fr i) := by
  unfold buyCond; infer_instance

instance (cfg : StrategyConfig) (xs : List Rat) (fr : List IndicatorEntry) (i : Nat) :
    Decidable (sellCond cfg xs fr i) := by
  unfold sellCond; infer_instance

/-- Modelled from the spec: the per-index rule evaluation, with BUY
priority when both rule sets hold. -/
def signalAt (cfg : StrategyConfig) (xs : List Rat) (fr : List IndicatorEntry) (i : Nat) :
    Option SignalType :=
  if buyCond cfg xs fr i then some .BUY
  else if sellCond cfg xs fr i then some .SELL
  else none

/-- Modelled from the spec: the eligibility threshold of the Signal
Generator; index `i` is eligible when both `i` and `i-1` are past every
warm-up window. -/
def warmAll (cfg : StrategyConfig) : Nat := max (wSig cfg) (max (wRsi cfg) (wBB cfg))

/-- Modelled from the spec: weighted confidence, 0.5 base for the MACD
cross plus 0.25 for each additional satisfied condition. -/
def confidenceAt (cfg : StrategyConfig) (xs : List Rat) (fr : List IndicatorEntry)
    (i : Nat) (t : SignalType) : Rat :=
  match t with
  | .BUY =>
      1 / 2 + (if rsi_oversold_at cfg fr i then (1 : Rat) / 4 else 0)
        + (if bb_support_at xs fr i then (1 : Rat) / 4 else 0)
  | .SELL =>
      1 / 2 + (if rsi_overbought_at cfg fr i then (1 : Rat) / 4 else 0)
        + (if bb_resistance_at xs fr i then (1 : Rat) / 4 else 0)

/-- Modelled from the spec: the audit string naming the fired
sub-conditions. -/
def reasonAt (cfg : StrategyConfig) (xs : List Rat) (fr : List IndicatorEntry)
    (i : Nat) (t : SignalType) : String :=
  match t with
  | .BUY =>
      "macd_bullish_cross" ++ (if rsi_oversold_at cfg fr i then ",rsi_oversold" else "")
        ++ (if bb_support_at xs fr i then ",bb_support" else "")
  | .SELL =>
      "macd_bearish_cross" ++ (if rsi_overbought_at cfg fr i then ",rsi_overbought" else "")
        ++ (if bb_resistance_at xs fr i then ",bb_resistance" else "")

/-- The signal record emitted for index `i` with decision `t`. -/
def mkSignal (cfg : StrategyConfig) (c : List Candle) (fr : List IndicatorEntry)
    (i : Nat) (t : SignalType) : Signal :=
  { timestamp := tsAt c i
    stype := t
    price := priceAt (closesOf c) i
    confidence := confidenceAt cfg (closesOf c) fr i t
    reason := reasonAt cfg (closesOf c) fr i t }

/-- The Signal Generator step for a single index. -/
def emitAt (c : List Candle) (fr : List IndicatorEntry) (cfg : StrategyConfig)
    (i : Nat) : Option Signal :=
  if warmAll cfg + 1 ≤ i then (signalAt cfg (closesOf c) fr i).map (mkSignal cfg c fr i)
  else none

/-- Modelled from the spec:
`generate(candles, indicators, config) -> [Signal]`. -/
def generate (c : List Candle) (fr : List IndicatorEntry) (cfg : StrategyConfig) : List Signal :=
  (List.range c.length).filterMap (emitAt c fr cfg)

/-- Modelled from the spec: position side. -/
inductive Side
  | LONG
  | FLAT
deriving DecidableEq

/-- Modelled from the spec: an open position. -/
structure Position where
  side : Side
  entry_price : Rat
  quantity : Rat
  entry_time : Int
  stop_loss_price : Rat
  take_profit_price : Rat
deriving DecidableEq

/-- Modelled from the spec: why a trade closed. -/
inductive ExitReason
  | SIGNAL
  | STOP_LOSS
  | TAKE_PROFIT
  | END_OF_DATA
deriving DecidableEq

/-- A fired exit: the reason and the fill price (clamped to the
configured threshold). -/
structure ExitDecision where
  reason : ExitReason
  price : Rat
deriving DecidableEq

/-- Modelled from the spec:
`check_exit(position, candle, config) -> ExitDecision | None`, with
stop-loss priority over take-profit in a straddling candle, and the exit
price clamped to the threshold price itself. -/
def check_exit (pos : Position) (cd : Candle) (cfg : StrategyConfig) : Option ExitDecision :=
  if pos.side = Side.LONG then
    if cd.low_price ≤ pos.stop_loss_price then some ⟨.STOP_LOSS, pos.stop_loss_price⟩
    else if pos.take_profit_price ≤ cd.high_price then some ⟨.TAKE_PROFIT, pos.take_profit_price⟩
    else none
  else none

/-- Modelled from the spec: a closed trade record. -/
structure Trade where
  entry_time : Int
  exit_time : Int
  entry_price : Rat
  exit_price : Rat
  quantity : Rat
  pnl : Rat
  exit_reason : ExitReason
deriving DecidableEq

/-- Modelled from the spec: simulator state; `positions` is kept as a
list so that the one-open-position invariant is a proved property rather
than a typing artifact. -/
structure SimState where
  positions : List Position
  balance : Rat
  equity : List (Int × Rat)
  trades : List Trade
deriving DecidableEq

/-- Modelled from the spec: the fixed commission percentage of notional
value charged on every entry and every exit. -/
def commissionPct : Rat := 1 / 10

/-- Mark-to-market equity at a given price. -/
def equityValue (st : SimState) (price : Rat) : Rat :=
  st.balance + (match st.positions with
    | pos :: _ => pos.quantity * price
    | [] => 0)

/-- Close the head position at the given fill price, deduct commission
and append the trade. -/
def closePos (pos : Position) (price : Rat) (reason : ExitReason) (cd : Candle)
    (rest : List Position) (st : SimState) : SimState :=
  let notional := pos.quantity * price
  let fee := notional * commissionPct / 100
  { st with
    positions := rest
    balance := st.balance + notional - fee
    trades := st.trades ++
      [{ entry_time := pos.entry_time
         exit_time := cd.close_time
         entry_price := pos.entry_price
         exit_price := price
         quantity := pos.quantity
         pnl := pos.quantity * (price - pos.entry_price)
         exit_reason := reason }] }

/-- Open a LONG position at the candle close, sized at
`min(config.max_position_size, available_balance) / close`, with
stop-loss and take-profit at `entry_price * (1 -+ pct/100)`. -/
def openPos (cfg : StrategyConfig) (cd : Candle) (st : SimState) : SimState :=
  let notional := min cfg.max_position_size st.balance
  let qty := notional / cd.close_price
  let fee := notional * commissionPct / 100
  { st with
    positions := [{ side := Side.LONG
                    entry_price := cd.close_price
                    quantity := qty
                    entry_time := cd.open_time
                    stop_loss_price := cd.close_price * (1 - cfg.stop_loss_pct / 100)
                    take_profit_price := cd.close_price * (1 + cfg.take_profit_pct / 100) }]
    balance := st.balance - notional - fee }

/-- Modelled from the spec: one simulator step; risk exits first (one
action per candle), then SELL-signal close or BUY-signal entry, then the
equity curve is marked to market at the candle close. -/
def simStep (cfg : StrategyConfig) (cd : Candle) (sig : Option SignalType)
    (st : SimState) : SimState :=
  let st1 :=
    match st.positions with
    | pos :: rest =>
      match check_exit pos cd cfg with
      | some d => closePos pos d.price d.reason cd rest st
      | none =>
        match sig with
        | some .SELL => closePos pos cd.close_price .SIGNAL cd rest st
        | _ => st
    | [] =>
      match sig with
      | some .BUY => openPos cfg cd st
      | _ => st
  { st1 with equity := st1.equity ++ [(cd.close_time, equityValue st1 cd.close_price)] }

/-- The generator decision consulted by the simulator at index `i`. -/
def sigOf (cfg : StrategyConfig) (c : List Candle) (fr : List IndicatorEntry)
    (i : Nat) : Option SignalType :=
  if warmAll cfg + 1 ≤ i then signalAt cfg (closesOf c) fr i else none

/-- A placeholder candle for out-of-range reads (never reached on the
indices the simulator walks). -/
def defCandle : Candle :=
  { symbol := "", timeframe := "", open_time := 0, close_time := 0,
    open_price := 0, high_price := 0, low_price := 0, close_price := 0, volume := 0 }

/-- The initial simulator state. -/
def initState (bal : Rat) : SimState :=
  { positions := [], balance := bal, equity := [], trades := [] }

/-- The simulator state after processing the first `k` candles. -/
def simUpTo (cfg : StrategyConfig) (c : List Candle) (fr : List IndicatorEntry)
    (bal : Rat) : Nat → SimState
  | 0 => initState bal
  | k + 1 => simStep cfg (c.getD k defCandle) (sigOf cfg c fr k) (simUpTo cfg c fr bal k)

/-- Modelled from the spec: at the final candle any still-open position
is forcibly closed at the last close price with reason END_OF_DATA. -/
def forceClose (c : List Candle) (st : SimState) : SimState :=
  match st.positions with
  | pos :: rest =>
    let last := c.getLastD defCandle
    closePos pos last.close_price .END_OF_DATA last rest st
  | [] => st

/-- The simulator state at the end of a full run. -/
def finalSimState (cfg : StrategyConfig) (c : List Candle) (fr : List IndicatorEntry)
    (bal : Rat) : SimState :=
  forceClose c (simUpTo cfg c fr bal c.length)

/-- Modelled from the spec: summary statistics of a run. -/
structure Metrics where
  total_return : Rat
  max_drawdown : Rat
  sharpe_ratio : Rat
  win_rate : Rat
  total_trades : Nat
  winning_trades : Nat
  losing_trades : Nat
  profit_factor : Option Rat
deriving DecidableEq

/-- Mean of a list of rationals (0 on the empty list). -/
def qMean (l : List Rat) : Rat := l.sum / (l.length : Rat)

/-- Population variance of a list of rationals. -/
def qVar (l : List Rat) : Rat :=
  (l.map (fun x => (x - qMean l) ^ 2)).sum / (l.length : Rat)

/-- Per-bar relative returns of the equity values, the first one taken
against the initial balance. -/
def returnsOf (init : Rat) (vals : List Rat) : List Rat :=
  List.zipWith (fun a b => (b - a) / a) (init :: vals) vals

/-- Modelled from the spec: maximum peak-to-trough relative decline,
running peak tracked left to right. -/
def maxDrawdown (init : Rat) (vals : List Rat) : Rat :=
  (vals.foldl (fun pr x =>
    let pk := max pr.1 x
    (pk, max pr.2 ((pk - x) / pk))) (init, (0 : Rat))).2

/-- Modelled from the spec: the annualization factor for the Sharpe
ratio (bars per year, fixed for the analysis timeframe). -/
def barsPerYear : Rat := 365

/-- Modelled from the spec: Sharpe ratio, mean per-bar return over its
population standard deviation, annualized by `sq barsPerYear`; defined
as 0 when the standard deviation is zero. -/
def sharpeOf (sq : Rat → Rat) (init : Rat) (vals : List Rat) : Rat :=
  let rets := returnsOf init vals
  if qVar rets = 0 then 0 else qMean rets / sq (qVar rets) * sq barsPerYear

/-- Modelled from the spec:
`summarize(trades, equity_curve, initial_balance) -> Metrics`, with the
documented division-safe degenerate cases. -/
def summarize (sq : Rat → Rat) (trades : List Trade) (equity : List (Int × Rat))
    (init : Rat) : Metrics :=
  let vals := equity.map Prod.snd
  let finalB := vals.getLastD init
  let winners := trades.filter (fun t => decide (0 < t.pnl))
  let losers := trades.filter (fun t => decide (t.pnl < 0))
  { total_return := (finalB - init) / init
    max_drawdown := maxDrawdown init vals
    sharpe_ratio := sharpeOf sq init vals
    win_rate := if trades.length = 0 then 0 else (winners.length : Rat) / (trades.length : Rat)
    total_trades := trades.length
    winning_trades := winners.length
    losing_trades := losers.length
    profit_factor :=
      if losers.length = 0 then none
      else some ((winners.map Trade.pnl).sum / |(losers.map Trade.pnl).sum|) }

/-- Modelled from the spec: the result record of a backtest run. -/
structure BacktestResult where
  symbol : String
  timeframe : String
  start_date : Int
  end_date : Int
  initial_balance : Rat
  final_balance : Rat
  total_return : Rat
  max_drawdown : Rat
  sharpe_ratio : Rat
  win_rate : Rat
  total_trades : Nat
  winning_trades : Nat
  losing_trades : Nat
  profit_factor : Option Rat
  trades : List Trade
  equity_curve : List (Int × Rat)
deriving DecidableEq

/-- Modelled from the spec: the Backtest Simulator as a pure function of
`(candles, config, initial_balance)` (and the numeric square root
routine): compute indicators, walk the candles, force-close at the end
and summarize. -/
def runBacktest (sq : Rat → Rat) (c : List Candle) (cfg : StrategyConfig)
    (bal : Rat) : Except EngineError BacktestResult :=
  match compute sq c cfg with
  | .error e => .error e
  | .ok fr =>
    let st := finalSimState cfg c fr bal
    let m := summarize sq st.trades st.equity bal
    .ok { symbol := (c.headD defCandle).symbol
          timeframe := (c.headD defCandle).timeframe
          start_date := (c.headD defCandle).open_time
          end_date := (c.getLastD defCandle).close_time
          initial_balance := bal
          final_balance := st.balance
          total_return := m.total_return
          max_drawdown := m.max_drawdown
          sharpe_ratio := m.sharpe_ratio
          win_rate := m.win_rate
          total_trades := m.total_trades
          winning_trades := m.winning_trades
          losing_trades := m.losing_trades
          profit_factor := m.profit_factor
          trades := st.trades
          equity_curve := st.equity }

/-- From src/frontend/src/services/websocket.ts: the reconnection
counter state of WebSocketService. -/
structure WSState where
  reconnectAttempts : Nat
deriving DecidableEq

/-- From websocket.ts: `maxReconnectAttempts = 5`. -/
def maxReconnectAttempts : Nat := 5

/-- Observable effects of the close/reconnect handlers: scheduling a
delayed `connect()` or emitting the `max_reconnect_attempts` event. -/
inductive WSAction
  | scheduleConnect
  | emitMax
deriving DecidableEq

/-- From websocket.ts `scheduleReconnect`: at the attempt cap, emit
`max_reconnect_attempts` and stop; otherwise increment the counter and
schedule a delayed `connect()`. -/
def scheduleReconnect (s : WSState) : WSState × Option WSAction :=
  if maxReconnectAttempts ≤ s.reconnectAttempts then (s, some .emitMax)
  else ({ s with reconnectAttempts := s.reconnectAttempts + 1 }, some .scheduleConnect)

/-- From websocket.ts `onclose`: reconnect only on abnormal closes
(code other than 1000). -/
def onClose (code : Nat) (s : WSState) : WSState × Option WSAction :=
  if code ≠ 1000 then scheduleReconnect s else (s, none)

/-- From websocket.ts `onopen`: a successful open resets the counter. -/
def onOpen (s : WSState) : WSState := { s with reconnectAttempts := 0 }

/-- Process a sequence of close events, collecting the emitted actions. -/
def runCloses (codes : List Nat) (s : WSState) : WSState × List WSAction :=
  match codes with
  | [] => (s, [])
  | cd :: rest =>
    let p := onClose cd s
    let q := runCloses rest p.1
    (q.1, p.2.toList ++ q.2)

/-- The number of reconnection attempts actually scheduled. -/
def countConnects (acts : List WSAction) : Nat :=
  (acts.filter (fun a => decide (a = WSAction.scheduleConnect))).length

/-- From src/frontend/src/components/Market/MarketOverview.tsx: an alert
kind of the PriceAlert component. -/
inductive AlertKind
  | above
  | below
deriving DecidableEq

/-- From MarketOverview.tsx: a price alert. -/
structure PAlert where
  id : Nat
  price : Rat
  kind : AlertKind
deriving DecidableEq

/-- From MarketOverview.tsx: the trigger condition,
`(type == above and currentPrice >= alert.price) or
(type == below and currentPrice <= alert.price)`. -/
def shouldTrigger (p : Rat) (a : PAlert) : Prop :=
  (a.kind = AlertKind.above ∧ a.price ≤ p) ∨ (a.kind = AlertKind.below ∧ p ≤ a.price)

instance (p : Rat) (a : PAlert) : Decidable (shouldTrigger p a) := by
  unfold shouldTrigger; infer_instance

/-- From MarketOverview.tsx: the forEach pass collecting, in order, the
ids of the alerts whose notification fires. -/
def firedIds (p : Rat) (alerts : List PAlert) : List Nat :=
  alerts.foldl (fun acc a => if shouldTrigger p a then acc ++ [a.id] else acc) []

/-- From MarketOverview.tsx `removeAlert`: drop every alert with the
given id. -/
def removeAlert (id : Nat) (l : List PAlert) : List PAlert :=
  l.filter (fun a => decide (a.id ≠ id))

/-- The queued removeAlert updates of one effect pass, applied in order. -/
def applyRemovals (ids : List Nat) (l : List PAlert) : List PAlert :=
  ids.foldl (fun acc id => removeAlert id acc) l

/-- From MarketOverview.tsx: one run of the trigger effect on a price
update.  The `currentPrice` prop is optional and the effect starts with
a JS falsy guard, so an absent price and a price equal to 0 are both
skipped. -/
def effectStep (cp : Option Rat) (alerts : List PAlert) : List Nat × List PAlert :=
  match cp with
  | none => ([], alerts)
  | some p =>
    if p = 0 then ([], alerts)
    else (firedIds p alerts, applyRemovals (firedIds p alerts) alerts)

/-- A sequence of price updates against the alert list, collecting every
notification fired (by alert id). -/
def runUpdates (prices : List (Option Rat)) (alerts : List PAlert) :
    List Nat × List PAlert :=
  match prices with
  | [] => ([], alerts)
  | cp :: rest =>
    let p := effectStep cp alerts
    let q := runUpdates rest p.2
    (p.1 ++ q.1, q.2)

/-- One simulator step preserves the one-open-position bound. -/
lemma simStep_positions_le (cfg : StrategyConfig) (cd : Candle) (sig : Option SignalType)
    (st : SimState) (h : st.positions.length ≤ 1) :
    (simStep cfg cd sig st).positions.length ≤ 1 := by
  unfold simStep
  cases hp : st.positions with
  | nil =>
    cases sig with
    | none => simpa [hp] using h
    | some t => cases t <;> simp [openPos, hp] <;> simpa [hp] using h
  | cons pos rest =>
    have hr : rest = [] := by
      have h1 := h
      rw [hp] at h1
      simpa using h1
    cases hce : check_exit pos cd cfg with
    | some d => simp [hce, closePos, hr]
    | none =>
      cases sig with
      | none => simp [hp, hce, hr]
      | some t => cases t <;> simp [hp, hce, closePos, hr]

/-- Claim C3: at every candle index reached during a backtest run, and at
the end of the run, the simulator state holds at most one open position
(FLAT or a single LONG). -/
theorem single_open_position (cfg : StrategyConfig) (c : List Candle)
    (fr : List IndicatorEntry) (bal : Rat) :
    (∀ k, (simUpTo cfg c fr bal k).positions.length ≤ 1) ∧
      (finalSimState cfg c fr bal).positions.length ≤ 1 := by
  have hall : ∀ k, (simUpTo cfg c fr bal k).positions.length ≤ 1 := by
    intro k
    induction k with
    | zero => simp [simUpTo, initState]
    | succ n ih => exact simStep_positions_le _ _ _ _ ih
  refine ⟨hall, ?_⟩
  unfold finalSimState forceClose
  cases hp : (simUpTo cfg c fr bal c.length).positions with
  | nil => simpa [hp] using hall c.length
  | cons pos rest =>
    have h1 := hall c.length
    rw [hp] at h1
    have hr : rest = [] := by simpa using h1
    simp [closePos, hr]

/-- Claim C2: the Backtest Simulator is deterministic, a pure function of
the candle sequence, the configuration and the initial balance: two runs
on identical inputs produce identical BacktestResult values, trade ledger
and equity curve included. -/
theorem backtest_deterministic (sq : Rat → Rat) (c1 c2 : List Candle)
    (cfg1 cfg2 : StrategyConfig) (b1 b2 : Rat)
    (hc : c1 = c2) (hcfg : cfg1 = cfg2) (hb : b1 = b2) :
    runBacktest sq c1 cfg1 b1 = runBacktest sq c2 cfg2 b2 := by
  subst hc; subst hcfg; subst hb; rfl

/-- Claim C5: `compute` fails with InsufficientDataError exactly when the
candle count is below `max(macd_slow + macd_signal_period, rsi_period + 1,
bb_period)`, and otherwise returns a full-length frame (no partial frame
is ever produced). -/
theorem compute_insufficient_iff (sq : Rat → Rat) (c : List Candle) (cfg : StrategyConfig) :
    (compute sq c cfg = .error .insufficientData ↔ c.length < minRequired cfg)
    ∧ (∀ fr, compute sq c cfg = .ok fr → minRequired cfg ≤ c.length ∧ fr.length = c.length) := by
  unfold compute
  by_cases h : c.length < minRequired cfg
  · simp [h]
  · simp only [h, if_false]
    constructor
    · simp [h]
    · intro fr hfr
      refine ⟨Nat.not_lt.mp h, ?_⟩
      cases hfr
      simp

/-- Claim C4: whenever the candle low is at or below the stop-loss price
of an open LONG position, the Risk Manager fires a stop-loss exit (even
if the candle high also reaches the take-profit level), and the trade the
simulator records exits at the configured stop price itself. -/
theorem stop_loss_priority (pos : Position) (cd : Candle) (cfg : StrategyConfig)
    (st : SimState) (sig : Option SignalType) (rest : List Position)
    (hside : pos.side = Side.LONG) (hlo : cd.low_price ≤ pos.stop_loss_price)
    (hpos : st.positions = pos :: rest) :
    check_exit pos cd cfg = some ⟨ExitReason.STOP_LOSS, pos.stop_loss_price⟩
    ∧ ∃ t : Trade, (simStep cfg cd sig st).trades = st.trades ++ [t]
        ∧ t.exit_reason = ExitReason.STOP_LOSS ∧ t.exit_price = pos.stop_loss_price := by
  have hce : check_exit pos cd cfg = some ⟨ExitReason.STOP_LOSS, pos.stop_loss_price⟩ := by
    unfold check_exit
    rw [if_pos hside, if_pos hlo]
  refine ⟨hce, ?_⟩
  refine ⟨{ entry_time := pos.entry_time, exit_time := cd.close_time,
            entry_price := pos.entry_price, exit_price := pos.stop_loss_price,
            quantity := pos.quantity,
            pnl := pos.quantity * (pos.stop_loss_price - pos.entry_price),
            exit_reason := ExitReason.STOP_LOSS }, ?_, rfl, rfl⟩
  unfold simStep
  rw [hpos]
  simp only [hce, closePos]

/-- The population variance of a window is nonnegative. -/
lemma varAt_nonneg (xs : List Rat) (p i : Nat) : 0 ≤ varAt xs p i := by
  unfold varAt
  apply div_nonneg
  · apply List.sum_nonneg
    intro x hx
    rw [List.mem_map] at hx
    obtain ⟨y, -, rfl⟩ := hx
    positivity
  · exact Nat.cast_nonneg p

/-- Claim C6: past the Bollinger warm-up the bands are ordered,
`bb_upper >= bb_middle >= bb_lower`, with equality exactly when the
population variance (hence the standard deviation) of the window is
zero.  `sq` is any square-root routine that is nonnegative and vanishes
only at zero. -/
theorem bollinger_band_order (sq : Rat → Rat) (xs : List Rat) (cfg : StrategyConfig)
    (i : Nat) (hs : ∀ v, 0 ≤ sq v) (hz : ∀ v, 0 ≤ v → (sq v = 0 ↔ v = 0))
    (hk : 0 < cfg.bb_std_dev) (hi : wBB cfg ≤ i) :
    bbLowerAt sq xs cfg i ≤ bbMiddleAt xs cfg i
    ∧ bbMiddleAt xs cfg i ≤ bbUpperAt sq xs cfg i
    ∧ (bbUpperAt sq xs cfg i = bbMiddleAt xs cfg i ↔ varAt xs cfg.bb_period i = 0)
    ∧ (bbLowerAt sq xs cfg i = bbMiddleAt xs cfg i ↔ varAt xs cfg.bb_period i = 0) := by
  have hv : 0 ≤ varAt xs cfg.bb_period i := varAt_nonneg xs cfg.bb_period i
  have hw : 0 ≤ cfg.bb_std_dev * sq (varAt xs cfg.bb_period i) :=
    mul_nonneg hk.le (hs _)
  have hzero : cfg.bb_std_dev * sq (varAt xs cfg.bb_period i) = 0
      ↔ varAt xs cfg.bb_period i = 0 := by
    rw [mul_eq_zero]
    constructor
    · intro h
      rcases h with h | h
      · exact absurd h hk.ne'
      · exact (hz _ hv).mp h
    · intro h
      exact Or.inr ((hz _ hv).mpr h)
  refine ⟨?_, ?_, ?_, ?_⟩
  · unfold bbLowerAt
    exact sub_le_self _ hw
  · unfold bbUpperAt
    exact le_add_of_nonneg_right hw
  · unfold bbUpperAt
    rw [add_right_eq_self]
    exact hzero
  · unfold bbLowerAt
    rw [sub_eq_self]
    exact hzero

/-- A concrete square-root stand-in satisfying the hypotheses of the
band-order theorem, used by witnesses. -/
def qAbs : Rat → Rat := fun v => |v|

/-- A concrete valid configuration with short periods, used by witnesses. -/
def cfgW : StrategyConfig :=
  { macd_fast := 2, macd_slow := 3, macd_signal_period := 2, rsi_period := 2,
    rsi_oversold := 30, rsi_overbought := 70, bb_period := 2, bb_std_dev := 2,
    stop_loss_pct := 2, take_profit_pct := 4, max_position_size := 100 }

/-- Witness for claim C6 at a concrete window. -/
theorem bollinger_band_order_witness :
    bbLowerAt qAbs [1, 3] cfgW 1 ≤ bbMiddleAt [1, 3] cfgW 1
    ∧ bbMiddleAt [1, 3] cfgW 1 ≤ bbUpperAt qAbs [1, 3] cfgW 1
    ∧ (bbUpperAt qAbs [1, 3] cfgW 1 = bbMiddleAt [1, 3] cfgW 1 ↔ varAt [1, 3] cfgW.bb_period 1 = 0)
    ∧ (bbLowerAt qAbs [1, 3] cfgW 1 = bbMiddleAt [1, 3] cfgW 1 ↔ varAt [1, 3] cfgW.bb_period 1 = 0) :=
  bollinger_band_order qAbs [1, 3] cfgW 1 (fun v => abs_nonneg v)
    (fun v _ => abs_eq_zero) (by decide) (by decide)

/-- Witness for claim C2 at a concrete input. -/
theorem backtest_deterministic_witness :
    runBacktest qAbs [] cfgW 1000 = runBacktest qAbs [] cfgW 1000 :=
  backtest_deterministic qAbs [] [] cfgW cfgW 1000 1000 rfl rfl rfl

/-- Witness for claim C5: the empty candle list is rejected. -/
theorem compute_insufficient_iff_witness :
    compute qAbs [] cfgW = .error .insufficientData :=
  (compute_insufficient_iff qAbs [] cfgW).1.mpr (by decide)

/-- A concrete open LONG position, used by the stop-loss witness. -/
def posW : Position :=
  { side := Side.LONG, entry_price := 100, quantity := 1, entry_time := 0,
    stop_loss_price := 98, take_profit_price := 104 }

/-- A concrete candle straddling both exit thresholds. -/
def cdW : Candle :=
  { symbol := "BTCUSDT", timeframe := "4h", open_time := 4, close_time := 5,
    open_price := 100, high_price := 105, low_price := 97, close_price := 99, volume := 1 }

/-- A concrete simulator state holding the open position. -/
def stW : SimState :=
  { positions := [posW], balance := 0, equity := [], trades := [] }

/-- Witness for claim C4 on the straddling candle. -/
theorem stop_loss_priority_witness :
    check_exit posW cdW cfgW = some ⟨ExitReason.STOP_LOSS, posW.stop_loss_price⟩
    ∧ ∃ t : Trade, (simStep cfgW cdW none stW).trades = stW.trades ++ [t]
        ∧ t.exit_reason = ExitReason.STOP_LOSS ∧ t.exit_price = posW.stop_loss_price :=
  stop_loss_priority posW cdW cfgW stW none [] (by decide) (by decide) rfl

/-- Counting scheduled connects, cons unfolding. -/
lemma countConnects_cons (a : WSAction) (l : List WSAction) :
    countConnects (a :: l) =
      countConnects l + (if a = WSAction.scheduleConnect then 1 else 0) := by
  unfold countConnects
  by_cases h : a = WSAction.scheduleConnect <;> simp [h, List.filter_cons]

/-- Projection of the one-field WebSocket state. -/
lemma WSState_attempts_mk (n : Nat) : (WSState.mk n).reconnectAttempts = n := rfl

/-- Over any run of abnormal closes, the scheduled reconnection attempts
are bounded by the remaining counter capacity. -/
lemma runCloses_count_le (codes : List Nat) (s : WSState)
    (h : ∀ cd ∈ codes, cd ≠ 1000) :
    countConnects (runCloses codes s).2 ≤ maxReconnectAttempts - s.reconnectAttempts := by
  induction codes generalizing s with
  | nil => simp [runCloses, countConnects]
  | cons cd rest ih =>
    have hcd : cd ≠ 1000 := h cd (by simp)
    have hrest : ∀ x ∈ rest, x ≠ 1000 := fun x hx => h x (by simp [hx])
    by_cases hm : maxReconnectAttempts ≤ s.reconnectAttempts
    · have hstep : onClose cd s = (s, some WSAction.emitMax) := by
        simp [onClose, hcd, scheduleReconnect, hm]
      simp only [runCloses, hstep, Option.toList_some, List.singleton_append]
      rw [countConnects_cons,
        if_neg (by decide : ¬ (WSAction.emitMax = WSAction.scheduleConnect))]
      have := ih s hrest
      omega
    · have hlt : s.reconnectAttempts < maxReconnectAttempts := Nat.lt_of_not_le hm
      have hstep : onClose cd s =
          ({ s with reconnectAttempts := s.reconnectAttempts + 1 },
            some WSAction.scheduleConnect) := by
        simp [onClose, hcd, scheduleReconnect, hm]
      simp only [runCloses, hstep, Option.toList_some, List.singleton_append]
      rw [countConnects_cons, if_pos rfl]
      have := ih { s with reconnectAttempts := s.reconnectAttempts + 1 } hrest
      simp only [WSState_attempts_mk] at this
      omega

/-- Once the abnormal closes outnumber the remaining counter capacity,
the `max_reconnect_attempts` event is emitted. -/
lemma runCloses_emitMax (codes : List Nat) (s : WSState)
    (h : ∀ cd ∈ codes, cd ≠ 1000)
    (hlen : maxReconnectAttempts - s.reconnectAttempts < codes.length) :
    WSAction.emitMax ∈ (runCloses codes s).2 := by
  induction codes generalizing s with
  | nil => simp at hlen
  | cons cd rest ih =>
    have hcd : cd ≠ 1000 := h cd (by simp)
    have hrest : ∀ x ∈ rest, x ≠ 1000 := fun x hx => h x (by simp [hx])
    by_cases hm : maxReconnectAttempts ≤ s.reconnectAttempts
    · have hstep : onClose cd s = (s, some WSAction.emitMax) := by
        simp [onClose, hcd, scheduleReconnect, hm]
      simp [runCloses, hstep]
    · have hlt : s.reconnectAttempts < maxReconnectAttempts := Nat.lt_of_not_le hm
      have hstep : onClose cd s =
          ({ s with reconnectAttempts := s.reconnectAttempts + 1 },
            some WSAction.scheduleConnect) := by
        simp [onClose, hcd, scheduleReconnect, hm]
      simp only [runCloses, hstep, Option.toList_some, List.singleton_append]
      have hlen2 : maxReconnectAttempts - (s.reconnectAttempts + 1) < rest.length := by
        simp only [List.length_cons] at hlen
        omega
      have := ih { s with reconnectAttempts := s.reconnectAttempts + 1 } hrest hlen2
      simp [this]

/-- Claim C9: a normal close (code 1000, as issued by `disconnect()`)
never schedules a reconnection; any run of abnormal closes without an
intervening successful open schedules at most `maxReconnectAttempts`
(five) reconnection attempts, and once the closes exceed that cap the
`max_reconnect_attempts` event is emitted; a successful open resets the
attempt counter to zero. -/
theorem ws_reconnect_policy :
    (∀ s : WSState, onClose 1000 s = (s, none))
    ∧ (∀ (codes : List Nat) (s : WSState), (∀ cd ∈ codes, cd ≠ 1000) →
        s.reconnectAttempts = 0 →
        countConnects (runCloses codes s).2 ≤ maxReconnectAttempts
        ∧ (maxReconnectAttempts < codes.length →
            WSAction.emitMax ∈ (runCloses codes s).2))
    ∧ (∀ s : WSState, (onOpen s).reconnectAttempts = 0) := by
  refine ⟨?_, ?_, ?_⟩
  · intro s
    simp [onClose]
  · intro codes s h h0
    constructor
    · have := runCloses_count_le codes s h
      rw [h0] at this
      simpa using this
    · intro hlen
      apply runCloses_emitMax codes s h
      rw [h0]
      simpa using hlen
  · intro s
    rfl

/-- Witness for claim C9 on a concrete event sequence (six abnormal
closes from a fresh connection). -/
theorem ws_reconnect_policy_witness :
    onClose 1000 ⟨3⟩ = (⟨3⟩, none)
    ∧ countConnects (runCloses [1006, 1006, 1006, 1006, 1006, 1006] ⟨0⟩).2
        ≤ maxReconnectAttempts
    ∧ WSAction.emitMax ∈ (runCloses [1006, 1006, 1006, 1006, 1006, 1006] ⟨0⟩).2
    ∧ (onOpen ⟨4⟩).reconnectAttempts = 0 :=
  ⟨ws_reconnect_policy.1 ⟨3⟩,
    (ws_reconnect_policy.2.1 [1006, 1006, 1006, 1006, 1006, 1006] ⟨0⟩ (by decide) rfl).1,
    (ws_reconnect_policy.2.1 [1006, 1006, 1006, 1006, 1006, 1006] ⟨0⟩ (by decide) rfl).2
      (by decide),
    ws_reconnect_policy.2.2 ⟨4⟩⟩

/-- The forEach pass fires exactly the ids of the triggered alerts, in
order. -/
lemma firedIds_eq (p : Rat) (alerts : List PAlert) :
    firedIds p alerts =
      (alerts.filter (fun a => decide (shouldTrigger p a))).map PAlert.id := by
  suffices h : ∀ acc, alerts.foldl
      (fun acc a => if shouldTrigger p a then acc ++ [a.id] else acc) acc =
      acc ++ (alerts.filter (fun a => decide (shouldTrigger p a))).map PAlert.id by
    simpa [firedIds] using h []
  induction alerts with
  | nil => intro acc; simp
  | cons a rest ih =>
    intro acc
    by_cases ht : shouldTrigger p a
    · simp [List.foldl_cons, ht, List.filter_cons, ih]
    · simp [List.foldl_cons, ht, List.filter_cons, ih]

/-- Membership after the queued removeAlert updates. -/
lemma mem_applyRemovals (ids : List Nat) (l : List PAlert) (x : PAlert) :
    x ∈ applyRemovals ids l ↔ x ∈ l ∧ x.id ∉ ids := by
  induction ids generalizing l with
  | nil => simp [applyRemovals]
  | cons id rest ih =>
    have h1 : applyRemovals (id :: rest) l = applyRemovals rest (removeAlert id l) := rfl
    rw [h1, ih]
    simp only [removeAlert, List.mem_filter, List.mem_cons, decide_eq_true_eq]
    push_neg
    tauto

/-- The iterated removals produce a sublist of the alert list. -/
lemma applyRemovals_sublist (ids : List Nat) (l : List PAlert) :
    (applyRemovals ids l).Sublist l := by
  induction ids generalizing l with
  | nil => simp [applyRemovals]
  | cons id rest ih =>
    have h1 : (applyRemovals rest (removeAlert id l)).Sublist (removeAlert id l) := ih _
    have h2 : (removeAlert id l).Sublist l := List.filter_sublist l
    have h3 : applyRemovals (id :: rest) l = applyRemovals rest (removeAlert id l) := rfl
    rw [h3]
    exact h1.trans h2

/-- Claim C10, counterexample: on a price update to 0 the trigger
condition of a below-alert holds, yet the JS falsy guard on
`currentPrice` skips the whole effect and no notification fires. -/
theorem price_alert_zero_skip :
    shouldTrigger 0 ⟨1, 5, AlertKind.below⟩
    ∧ (effectStep (some 0) [⟨1, 5, AlertKind.below⟩]).1 = []
    ∧ (effectStep (some 0) [⟨1, 5, AlertKind.below⟩]).2 = [⟨1, 5, AlertKind.below⟩] := by
  refine ⟨?_, rfl, rfl⟩
  exact Or.inr ⟨rfl, by norm_num⟩

/-- Every fired id belongs to an alert in the list. -/
lemma effect_fired_sub (cp : Option Rat) (alerts : List PAlert) (i : Nat)
    (h : i ∈ (effectStep cp alerts).1) : i ∈ alerts.map PAlert.id := by
  cases cp with
  | none => simp [effectStep] at h
  | some p =>
    by_cases hp : p = 0
    · simp [effectStep, hp] at h
    · simp only [effectStep, if_neg hp] at h
      rw [firedIds_eq] at h
      rcases List.mem_map.mp h with ⟨a, ha, rfl⟩
      exact List.mem_map.mpr ⟨a, (List.mem_filter.mp ha).1, rfl⟩

/-- Every surviving alert was in the list. -/
lemma effect_rem_sub (cp : Option Rat) (alerts : List PAlert) :
    ((effectStep cp alerts).2).Sublist alerts := by
  cases cp with
  | none => simp [effectStep]
  | some p =>
    by_cases hp : p = 0
    · simp [effectStep, hp]
    · simp only [effectStep, if_neg hp]
      exact applyRemovals_sublist _ _

/-- The effect keeps the alert ids distinct. -/
lemma effect_rem_nodup (cp : Option Rat) (alerts : List PAlert)
    (h : (alerts.map PAlert.id).Nodup) :
    (((effectStep cp alerts).2).map PAlert.id).Nodup :=
  h.sublist ((effect_rem_sub cp alerts).map PAlert.id)

/-- The ids fired by one effect pass are distinct. -/
lemma effect_fired_nodup (cp : Option Rat) (alerts : List PAlert)
    (h : (alerts.map PAlert.id).Nodup) : ((effectStep cp alerts).1).Nodup := by
  cases cp with
  | none => simp [effectStep]
  | some p =>
    by_cases hp : p = 0
    · simp [effectStep, hp]
    · simp only [effectStep, if_neg hp]
      rw [firedIds_eq]
      exact h.sublist ((List.filter_sublist alerts).map PAlert.id)

/-- A fired alert does not survive the effect pass. -/
lemma effect_fired_not_rem (cp : Option Rat) (alerts : List PAlert) (i : Nat)
    (h : i ∈ (effectStep cp alerts).1) :
    i ∉ ((effectStep cp alerts).2).map PAlert.id := by
  cases cp with
  | none => simp [effectStep] at h
  | some p =>
    by_cases hp : p = 0
    · simp [effectStep, hp] at h
    · simp only [effectStep, if_neg hp] at h ⊢
      intro hmem
      rcases List.mem_map.mp hmem with ⟨a, ha, rfl⟩
      exact ((mem_applyRemovals _ _ _).mp ha).2 h

/-- Every id fired over a run of price updates is an id of the initial
alert list. -/
lemma run_fired_sub (prices : List (Option Rat)) (alerts : List PAlert) (i : Nat)
    (h : i ∈ (runUpdates prices alerts).1) : i ∈ alerts.map PAlert.id := by
  induction prices generalizing alerts with
  | nil => simp [runUpdates] at h
  | cons cp rest ih =>
    simp only [runUpdates, List.mem_append] at h
    rcases h with h | h
    · exact effect_fired_sub cp alerts i h
    · have h1 := ih _ h
      rcases List.mem_map.mp h1 with ⟨a, ha, rfl⟩
      exact List.mem_map.mpr ⟨a, (effect_rem_sub cp alerts).mem ha, rfl⟩

/-- With distinct ids, no alert id fires more than once over any run of
price updates. -/
lemma run_count_le (prices : List (Option Rat)) (alerts : List PAlert) (i : Nat)
    (h : (alerts.map PAlert.id).Nodup) :
    (runUpdates prices alerts).1.count i ≤ 1 := by
  induction prices generalizing alerts with
  | nil => simp [runUpdates]
  | cons cp rest ih =>
    simp only [runUpdates, List.count_append]
    by_cases hi : i ∈ (effectStep cp alerts).1
    · have c1 : (effectStep cp alerts).1.count i ≤ 1 :=
        List.nodup_iff_count_le_one.mp (effect_fired_nodup cp alerts h) i
      have c2 : (runUpdates rest (effectStep cp alerts).2).1.count i = 0 := by
        rw [List.count_eq_zero]
        intro hmem
        exact effect_fired_not_rem cp alerts i hi (run_fired_sub rest _ i hmem)
      omega
    · have c1 : (effectStep cp alerts).1.count i = 0 := List.count_eq_zero.mpr hi
      have c2 := ih _ (effect_rem_nodup cp alerts h)
      omega

/-- Claim C10 (amended): on a price update with a present, non-zero
price, a notification fires exactly for the alerts whose threshold
condition holds; the fired alerts are removed and the others kept; and
with distinct alert ids each alert notifies at most once over any
sequence of price updates. -/
theorem price_alert_policy :
    (∀ (p : Rat) (alerts : List PAlert) (i : Nat), p ≠ 0 →
        (i ∈ (effectStep (some p) alerts).1 ↔
          ∃ a ∈ alerts, shouldTrigger p a ∧ a.id = i))
    ∧ (∀ (p : Rat) (alerts : List PAlert) (a : PAlert), p ≠ 0 →
        (a ∈ (effectStep (some p) alerts).2 ↔
          a ∈ alerts ∧ a.id ∉ (effectStep (some p) alerts).1))
    ∧ (∀ (prices : List (Option Rat)) (alerts : List PAlert) (i : Nat),
        (alerts.map PAlert.id).Nodup → (runUpdates prices alerts).1.count i ≤ 1) := by
  refine ⟨?_, ?_, ?_⟩
  · intro p alerts i hp
    simp only [effectStep, if_neg hp]
    rw [firedIds_eq]
    simp only [List.mem_map, List.mem_filter, decide_eq_true_eq]
    constructor
    · rintro ⟨a, ⟨ha, ht⟩, rfl⟩
      exact ⟨a, ha, ht, rfl⟩
    · rintro ⟨a, ha, ht, rfl⟩
      exact ⟨a, ⟨ha, ht⟩, rfl⟩
  · intro p alerts a hp
    simp only [effectStep, if_neg hp]
    exact mem_applyRemovals _ _ _
  · exact fun prices alerts i h => run_count_le prices alerts i h

/-- Witness for claim C10 at concrete alerts and updates. -/
theorem price_alert_policy_witness :
    ((7 : Nat) ∈ (effectStep (some 10) [⟨7, 9, AlertKind.above⟩]).1 ↔
      ∃ a ∈ [(⟨7, 9, AlertKind.above⟩ : PAlert)], shouldTrigger 10 a ∧ a.id = 7)
    ∧ ((⟨7, 9, AlertKind.above⟩ : PAlert) ∈ (effectStep (some 10) [⟨7, 9, AlertKind.above⟩]).2 ↔
        (⟨7, 9, AlertKind.above⟩ : PAlert) ∈ [(⟨7, 9, AlertKind.above⟩ : PAlert)]
          ∧ (7 : Nat) ∉ (effectStep (some 10) [⟨7, 9, AlertKind.above⟩]).1)
    ∧ (runUpdates [some 10, some 11] [⟨7, 9, AlertKind.above⟩]).1.count 7 ≤ 1 :=
  ⟨price_alert_policy.1 10 [⟨7, 9, AlertKind.above⟩] 7 (by norm_num),
    price_alert_policy.2.1 10 [⟨7, 9, AlertKind.above⟩] ⟨7, 9, AlertKind.above⟩ (by norm_num),
    price_alert_policy.2.2 [some 10, some 11] [⟨7, 9, AlertKind.above⟩] 7 (by decide)⟩

/-- Membership in the generated signal list, characterized by the
per-index rule evaluation. -/
lemma mem_generate (c : List Candle) (fr : List IndicatorEntry) (cfg : StrategyConfig)
    (s : Signal) :
    s ∈ generate c fr cfg ↔
      ∃ i, i < c.length ∧ warmAll cfg + 1 ≤ i ∧
        ∃ t, signalAt cfg (closesOf c) fr i = some t ∧ s = mkSignal cfg c fr i t := by
  unfold generate
  rw [List.mem_filterMap]
  constructor
  · rintro ⟨i, hi, hemit⟩
    rw [List.mem_range] at hi
    unfold emitAt at hemit
    by_cases hw : warmAll cfg + 1 ≤ i
    · rw [if_pos hw] at hemit
      rcases Option.map_eq_some'.mp hemit with ⟨t, ht, hts⟩
      exact ⟨i, hi, hw, t, ht, hts.symm⟩
    · rw [if_neg hw] at hemit
      cases hemit
  · rintro ⟨i, hi, hw, t, ht, rfl⟩
    refine ⟨i, List.mem_range.mpr hi, ?_⟩
    unfold emitAt
    rw [if_pos hw, ht]
    rfl

/-- The rule evaluation yields BUY exactly on the BUY condition. -/
lemma signalAt_eq_buy (cfg : StrategyConfig) (xs : List Rat) (fr : List IndicatorEntry)
    (i : Nat) : signalAt cfg xs fr i = some SignalType.BUY ↔ buyCond cfg xs fr i := by
  unfold signalAt
  by_cases hb : buyCond cfg xs fr i
  · simp [hb]
  · by_cases hs : sellCond cfg xs fr i <;> simp [hb, hs]

/-- The rule evaluation yields SELL exactly on the SELL condition (the
BUY and SELL conditions are mutually exclusive, since the two crossover
conditions contradict each other). -/
lemma signalAt_eq_sell (cfg : StrategyConfig) (xs : List Rat) (fr : List IndicatorEntry)
    (i : Nat) : signalAt cfg xs fr i = some SignalType.SELL ↔ sellCond cfg xs fr i := by
  unfold signalAt
  by_cases hb : buyCond cfg xs fr i
  · have hns : ¬ sellCond cfg xs fr i := by
      intro hs
      exact absurd hs.1.1 (not_lt.mpr hb.1.1.le)
    simp [hb, hns]
  · by_cases hs : sellCond cfg xs fr i <;> simp [hb, hs]

/-- Claim C1: at every eligible index (past every warm-up), the Signal
Generator emits BUY exactly when the MACD bullish cross holds together
with RSI oversold or Bollinger support, emits SELL exactly when the MACD
bearish cross holds together with RSI overbought or Bollinger
resistance, and emits nothing otherwise.  Candle timestamps are assumed
injective (the spec orders candles strictly by open time). -/
theorem signal_rule (c : List Candle) (fr : List IndicatorEntry) (cfg : StrategyConfig)
    (i : Nat) (hel : warmAll cfg + 1 ≤ i) (hilen : i < c.length)
    (hinj : ∀ j, j < c.length → ∀ k, k < c.length → tsAt c j = tsAt c k → j = k) :
    ((∃ s ∈ generate c fr cfg, s.timestamp = tsAt c i ∧ s.stype = SignalType.BUY)
      ↔ buyCond cfg (closesOf c) fr i)
    ∧ ((∃ s ∈ generate c fr cfg, s.timestamp = tsAt c i ∧ s.stype = SignalType.SELL)
      ↔ sellCond cfg (closesOf c) fr i)
    ∧ (¬ buyCond cfg (closesOf c) fr i ∧ ¬ sellCond cfg (closesOf c) fr i →
        ∀ s ∈ generate c fr cfg, s.timestamp ≠ tsAt c i) := by
  have hidx : ∀ s ∈ generate c fr cfg, s.timestamp = tsAt c i →
      ∃ t, signalAt cfg (closesOf c) fr i = some t ∧ s = mkSignal cfg c fr i t := by
    intro s hs hts
    rcases (mem_generate c fr cfg s).mp hs with ⟨j, hj, hwj, t, ht, rfl⟩
    have hji : j = i := by
      apply hinj j hj i hilen
      simpa [mkSignal] using hts
    subst hji
    exact ⟨t, ht, rfl⟩
  refine ⟨?_, ?_, ?_⟩
  · constructor
    · rintro ⟨s, hs, hts, hty⟩
      rcases hidx s hs hts with ⟨t, ht, rfl⟩
      have : t = SignalType.BUY := by simpa [mkSignal] using hty
      subst this
      exact (signalAt_eq_buy cfg (closesOf c) fr i).mp ht
    · intro hb
      refine ⟨mkSignal cfg c fr i SignalType.BUY, ?_, by simp [mkSignal], by simp [mkSignal]⟩
      exact (mem_generate c fr cfg _).mpr
        ⟨i, hilen, hel, SignalType.BUY, (signalAt_eq_buy cfg (closesOf c) fr i).mpr hb, rfl⟩
  · constructor
    · rintro ⟨s, hs, hts, hty⟩
      rcases hidx s hs hts with ⟨t, ht, rfl⟩
      have : t = SignalType.SELL := by simpa [mkSignal] using hty
      subst this
      exact (signalAt_eq_sell cfg (closesOf c) fr i).mp ht
    · intro hb
      refine ⟨mkSignal cfg c fr i SignalType.SELL, ?_, by simp [mkSignal], by simp [mkSignal]⟩
      exact (mem_generate c fr cfg _).mpr
        ⟨i, hilen, hel, SignalType.SELL, (signalAt_eq_sell cfg (closesOf c) fr i).mpr hb, rfl⟩
  · rintro ⟨hnb, hns⟩ s hs hts
    rcases hidx s hs hts with ⟨t, ht, rfl⟩
    cases t with
    | BUY => exact hnb ((signalAt_eq_buy cfg (closesOf c) fr i).mp ht)
    | SELL => exact hns ((signalAt_eq_sell cfg (closesOf c) fr i).mp ht)

/-- A concrete five-candle sequence with distinct open times. -/
def cW : List Candle :=
  [ { symbol := "BTCUSDT", timeframe := "4h", open_time := 0, close_time := 1,
      open_price := 100, high_price := 101, low_price := 99, close_price := 100, volume := 1 },
    { symbol := "BTCUSDT", timeframe := "4h", open_time := 1, close_time := 2,
      open_price := 100, high_price := 101, low_price := 99, close_price := 100, volume := 1 },
    { symbol := "BTCUSDT", timeframe := "4h", open_time := 2, close_time := 3,
      open_price := 100, high_price := 101, low_price := 99, close_price := 100, volume := 1 },
    { symbol := "BTCUSDT", timeframe := "4h", open_time := 3, close_time := 4,
      open_price := 100, high_price := 101, low_price := 99, close_price := 100, volume := 1 },
    { symbol := "BTCUSDT", timeframe := "4h", open_time := 4, close_time := 5,
      open_price := 100, high_price := 101, low_price := 99, close_price := 100, volume := 1 } ]

/-- A concrete indicator frame with a bullish cross and oversold RSI at
index 4. -/
def frW : List IndicatorEntry :=
  [ emptyEntry, emptyEntry, emptyEntry,
    { emptyEntry with macd := some 0, macd_signal := some 0 },
    { emptyEntry with macd := some 1, macd_signal := some 0, rsi := some 20 } ]

/-- Witness for claim C1 at index 4 of the concrete sequence. -/
theorem signal_rule_witness :
    ((∃ s ∈ generate cW frW cfgW, s.timestamp = tsAt cW 4 ∧ s.stype = SignalType.BUY)
      ↔ buyCond cfgW (closesOf cW) frW 4)
    ∧ ((∃ s ∈ generate cW frW cfgW, s.timestamp = tsAt cW 4 ∧ s.stype = SignalType.SELL)
      ↔ sellCond cfgW (closesOf cW) frW 4)
    ∧ (¬ buyCond cfgW (closesOf cW) frW 4 ∧ ¬ sellCond cfgW (closesOf cW) frW 4 →
        ∀ s ∈ generate cW frW cfgW, s.timestamp ≠ tsAt cW 4) :=
  signal_rule cW frW cfgW 4 (by decide) (by decide) (by decide)

/-- If a simulator step ends with no trades and no position, it started
that way and only appended a flat equity mark. -/
lemma simStep_empty (cfg : StrategyConfig) (cd : Candle) (sig : Option SignalType)
    (st : SimState) (ht : (simStep cfg cd sig st).trades = [])
    (hp : (simStep cfg cd sig st).positions = []) :
    st.trades = [] ∧ st.positions = []
    ∧ (simStep cfg cd sig st).balance = st.balance
    ∧ (simStep cfg cd sig st).equity = st.equity ++ [(cd.close_time, st.balance)] := by
  cases hpos : st.positions with
  | nil =>
    cases sig with
    | none =>
      simp only [simStep, hpos] at ht hp ⊢
      exact ⟨ht, by trivial, by trivial, by simp [equityValue, hpos]⟩
    | some t =>
      cases t with
      | BUY =>
        simp only [simStep, hpos] at hp
        simp [openPos] at hp
      | SELL =>
        simp only [simStep, hpos] at ht hp ⊢
        exact ⟨ht, by trivial, by trivial, by simp [equityValue, hpos]⟩
  | cons pos rest =>
    cases hce : check_exit pos cd cfg with
    | some d =>
      simp only [simStep, hpos, hce] at ht
      simp [closePos] at ht
    | none =>
      cases sig with
      | none =>
        simp only [simStep, hpos, hce] at hp
        simp [hpos] at hp
      | some t =>
        cases t with
        | BUY =>
          simp only [simStep, hpos, hce] at hp
          simp [hpos] at hp
        | SELL =>
          simp only [simStep, hpos, hce] at ht
          simp [closePos] at ht

/-- A run that has produced no trades and holds no position has a
constant balance and a flat equity curve. -/
lemma simUpTo_flat (cfg : StrategyConfig) (c : List Candle) (fr : List IndicatorEntry)
    (bal : Rat) (k : Nat) (ht : (simUpTo cfg c fr bal k).trades = [])
    (hp : (simUpTo cfg c fr bal k).positions = []) :
    (simUpTo cfg c fr bal k).balance = bal
    ∧ ∀ e ∈ (simUpTo cfg c fr bal k).equity, e.2 = bal := by
  induction k with
  | zero => exact ⟨rfl, by simp [simUpTo, initState]⟩
  | succ n ih =>
    have hstep := simStep_empty cfg (c.getD n defCandle) (sigOf cfg c fr n)
      (simUpTo cfg c fr bal n) ht hp
    rcases hstep with ⟨ht0, hp0, hbal, heq⟩
    rcases ih ht0 hp0 with ⟨hb, he⟩
    constructor
    · rw [show (simUpTo cfg c fr bal (n + 1)) =
        simStep cfg (c.getD n defCandle) (sigOf cfg c fr n) (simUpTo cfg c fr bal n) from rfl,
        hbal, hb]
    · intro e hmem
      rw [show (simUpTo cfg c fr bal (n + 1)) =
        simStep cfg (c.getD n defCandle) (sigOf cfg c fr n) (simUpTo cfg c fr bal n) from rfl,
        heq] at hmem
      rcases List.mem_append.mp hmem with h | h
      · exact he e h
      · simp only [List.mem_singleton] at h
        rw [h, hb]

/-- A full run with an empty trade ledger never opened a position: the
force close is a no-op, balance stays at the initial value and the
equity curve is flat. -/
lemma finalSimState_flat (cfg : StrategyConfig) (c : List Candle)
    (fr : List IndicatorEntry) (bal : Rat)
    (ht : (finalSimState cfg c fr bal).trades = []) :
    (finalSimState cfg c fr bal).balance = bal
    ∧ ∀ e ∈ (finalSimState cfg c fr bal).equity, e.2 = bal := by
  unfold finalSimState forceClose at *
  cases hp : (simUpTo cfg c fr bal c.length).positions with
  | cons pos rest =>
    rw [hp] at ht
    simp [closePos] at ht
  | nil =>
    rw [hp] at ht
    exact simUpTo_flat cfg c fr bal c.length ht hp

/-- The drawdown fold is inert on a flat equity curve. -/
lemma maxDrawdown_const (b : Rat) (vals : List Rat) (h : ∀ x ∈ vals, x = b) :
    maxDrawdown b vals = 0 := by
  unfold maxDrawdown
  suffices hfold : vals.foldl (fun pr x =>
      let pk := max pr.1 x
      (pk, max pr.2 ((pk - x) / pk))) (b, (0 : Rat)) = (b, 0) by rw [hfold]
  induction vals with
  | nil => rfl
  | cons x rest ih =>
    have hx : x = b := h x (by simp)
    have hrest : ∀ y ∈ rest, y = b := fun y hy => h y (by simp [hy])
    simp only [List.foldl_cons, hx, max_self, sub_self, zero_div, max_self]
    simpa using ih hrest

/-- Per-bar returns of a flat equity curve are all zero. -/
lemma returnsOf_const (b : Rat) (vals : List Rat) (h : ∀ x ∈ vals, x = b) :
    ∀ r ∈ returnsOf b vals, r = 0 := by
  unfold returnsOf
  suffices haux : ∀ (a : Rat) (l : List Rat), a = b → (∀ x ∈ l, x = b) →
      ∀ r ∈ List.zipWith (fun a b => (b - a) / a) (a :: l) l, r = 0 by
    exact haux b vals rfl h
  intro a l
  induction l generalizing a with
  | nil => intro _ _ r hr; simp at hr
  | cons x rest ih =>
    intro ha hall r hr
    have hx : x = b := hall x (by simp)
    have hrest : ∀ y ∈ rest, y = b := fun y hy => hall y (by simp [hy])
    simp only [List.zipWith_cons_cons, List.mem_cons] at hr
    rcases hr with hr | hr
    · rw [hr, ha, hx, sub_self, zero_div]
    · exact ih x hx hrest r hr

/-- Mean and population variance of an all-zero list are zero. -/
lemma qVar_zero (l : List Rat) (h : ∀ r ∈ l, r = 0) : qMean l = 0 ∧ qVar l = 0 := by
  have hm : qMean l = 0 := by
    unfold qMean
    rw [List.sum_eq_zero h, zero_div]
  refine ⟨hm, ?_⟩
  unfold qVar
  rw [List.sum_eq_zero, zero_div]
  intro x hx
  rcases List.mem_map.mp hx with ⟨r, hr, rfl⟩
  rw [h r hr, hm, sub_zero]
  norm_num

/-- The Sharpe ratio of a flat equity curve is the documented zero. -/
lemma sharpeOf_const (sq : Rat → Rat) (b : Rat) (vals : List Rat)
    (h : ∀ x ∈ vals, x = b) : sharpeOf sq b vals = 0 := by
  unfold sharpeOf
  have hz := (qVar_zero (returnsOf b vals) (returnsOf_const b vals h)).2
  rw [if_pos hz]

/-- Claim C8, counterexample: the Performance Analyzer computes the
drawdown from whatever equity curve it is given, so with zero trades but
a non-flat curve the drawdown is not zero; the zero-drawdown part of the
claim only holds for curves produced by a zero-trade backtest run. -/
theorem perf_dd_counterexample :
    (summarize qAbs [] [(0, 100), (1, 50)] 100).total_trades = 0
    ∧ (summarize qAbs [] [(0, 100), (1, 50)] 100).max_drawdown ≠ 0 := by
  constructor
  · rfl
  · show maxDrawdown 100 ([(0, 100), (1, 50)].map Prod.snd) ≠ 0
    simp [maxDrawdown, List.foldl]
    norm_num [max_def]

/-- Claim C8 (amended): the Performance Analyzer never divides by zero:
with no losing trades the profit factor is the documented sentinel
(none), with zero trades the win rate is 0, and every backtest run whose
result has zero trades reports win rate 0, max drawdown 0, Sharpe ratio
0 and the sentinel profit factor. -/
theorem perf_division_safety (sq : Rat → Rat) :
    (∀ (trades : List Trade) (equity : List (Int × Rat)) (bal : Rat),
        (trades.filter (fun t => decide (t.pnl < 0))).length = 0 →
        (summarize sq trades equity bal).profit_factor = none)
    ∧ (∀ (trades : List Trade) (equity : List (Int × Rat)) (bal : Rat),
        trades = [] → (summarize sq trades equity bal).win_rate = 0)
    ∧ (∀ (c : List Candle) (cfg : StrategyConfig) (bal : Rat),
        (runBacktest sq c cfg bal).map BacktestResult.total_trades = Except.ok 0 →
        (runBacktest sq c cfg bal).map
            (fun r => (r.win_rate, r.max_drawdown, r.sharpe_ratio, r.profit_factor))
          = Except.ok (0, 0, 0, none)) := by
  refine ⟨?_, ?_, ?_⟩
  · intro trades equity bal h
    simp [summarize, h]
  · intro trades equity bal h
    simp [summarize, h]
  · intro c cfg bal h
    cases hcomp : compute sq c cfg with
    | error e => simp [runBacktest, hcomp, Except.map] at h
    | ok fr =>
      simp only [runBacktest, hcomp, Except.map_ok] at h ⊢
      have h0 : (finalSimState cfg c fr bal).trades.length = 0 := Except.ok.inj h
      have ht : (finalSimState cfg c fr bal).trades = [] := List.length_eq_zero.mp h0
      obtain ⟨hb, he⟩ := finalSimState_flat cfg c fr bal ht
      have hvals : ∀ x ∈ (finalSimState cfg c fr bal).equity.map Prod.snd, x = bal := by
        intro x hx
        rcases List.mem_map.mp hx with ⟨e, hmem, rfl⟩
        exact he e hmem
      have hdd : maxDrawdown bal ((finalSimState cfg c fr bal).equity.map Prod.snd) = 0 :=
        maxDrawdown_const bal _ hvals
      have hsh : sharpeOf sq bal ((finalSimState cfg c fr bal).equity.map Prod.snd) = 0 :=
        sharpeOf_const sq bal _ hvals
      simp [summarize, ht, hdd, hsh, Except.map]

/-- A concrete flat candle. -/
def flatCd : Candle :=
  { symbol := "BTCUSDT", timeframe := "4h", open_time := 0, close_time := 1,
    open_price := 100, high_price := 100, low_price := 100, close_price := 100, volume := 1 }

/-- A constant-zero square-root stand-in for witnesses that never force
a root. -/
def sqZ : Rat → Rat := fun _ => 0

/-- A degenerate configuration whose warm-up windows all fit in a single
candle, used to exercise a zero-trade run concretely. -/
def cfg0 : StrategyConfig :=
  { macd_fast := 0, macd_slow := 0, macd_signal_period := 1, rsi_period := 0,
    rsi_oversold := 30, rsi_overbought := 70, bb_period := 1, bb_std_dev := 2,
    stop_loss_pct := 2, take_profit_pct := 4, max_position_size := 100 }

/-- Witness for claim C8: empty ledger inputs and a concrete zero-trade
run. -/
theorem perf_division_safety_witness :
    (summarize sqZ [] [] 100).profit_factor = none
    ∧ (summarize sqZ [] [] 100).win_rate = 0
    ∧ (runBacktest sqZ [flatCd] cfg0 1000).map
        (fun r => (r.win_rate, r.max_drawdown, r.sharpe_ratio, r.profit_factor))
      = Except.ok (0, 0, 0, none) :=
  ⟨(perf_division_safety sqZ).1 [] [] 100 rfl,
    (perf_division_safety sqZ).2.1 [] [] 100 rfl,
    (perf_division_safety sqZ).2.2 [flatCd] cfg0 1000 (by rfl)⟩

/-- Reading inside the taken part of a list sees the original entries. -/
lemma take_getD (l : List Rat) (n i : Nat) (d : Rat) (h : i < n) :
    (l.take n).getD i d = l.getD i d := by
  induction l generalizing n i with
  | nil => simp
  | cons x xs ih =>
    cases n with
    | zero => omega
    | succ m =>
      cases i with
      | zero => simp
      | succ j =>
        simp only [List.take_succ_cons, List.getD_cons_succ]
        exact ih m j (by omega)

/-- EMA series only read their inputs between the series start and the
evaluation index. -/
lemma emaSeries_congr (p start : Nat) (f g : Nat → Rat) :
    ∀ i, start + p - 1 ≤ i → (∀ j, start ≤ j → j ≤ i → f j = g j) →
      emaSeries p start f i = emaSeries p start g i := by
  have hseed : ∀ (i : Nat), start + p - 1 ≤ i →
      (∀ j, start ≤ j → j ≤ i → f j = g j) → emaSeed p start f = emaSeed p start g := by
    intro i hi h
    unfold emaSeed
    congr 1
    apply congrArg List.sum
    apply List.map_congr_left
    intro j hj
    rw [List.mem_range] at hj
    exact h (start + j) (by omega) (by omega)
  intro i
  induction i with
  | zero =>
    intro hi h
    exact hseed 0 hi h
  | succ n ih =>
    intro hi h
    simp only [emaSeries]
    by_cases hc : n + 1 ≤ start + p - 1
    · rw [if_pos hc, if_pos hc]
      exact hseed (n + 1) hi h
    · rw [if_neg hc, if_neg hc]
      have h1 : f (n + 1) = g (n + 1) := h (n + 1) (by omega) (by omega)
      have h2 : emaSeries p start f n = emaSeries p start g n :=
        ih (by omega) (fun j hj1 hj2 => h j hj1 (by omega))
      rw [h1, h2]

/-- Wilder smoothing only reads its inputs between index 1 and the
evaluation index. -/
lemma wilder_congr (p : Nat) (f g : Nat → Rat) :
    ∀ i, p ≤ i → (∀ j, 1 ≤ j → j ≤ i → f j = g j) → wilder p f i = wilder p g i := by
  have hseed : ∀ (i : Nat), p ≤ i → (∀ j, 1 ≤ j → j ≤ i → f j = g j) →
      wilderSeed p f = wilderSeed p g := by
    intro i hi h
    unfold wilderSeed
    congr 1
    apply congrArg List.sum
    apply List.map_congr_left
    intro j hj
    rw [List.mem_range] at hj
    exact h (j + 1) (by omega) (by omega)
  intro i
  induction i with
  | zero =>
    intro hi h
    exact hseed 0 hi h
  | succ n ih =>
    intro hi h
    simp only [wilder]
    by_cases hc : n + 1 ≤ p
    · rw [if_pos hc, if_pos hc]
      exact hseed (n + 1) hi h
    · rw [if_neg hc, if_neg hc]
      have h1 : f (n + 1) = g (n + 1) := h (n + 1) (by omega) (by omega)
      have h2 : wilder p f n = wilder p g n :=
        ih (by omega) (fun j hj1 hj2 => h j hj1 (by omega))
      rw [h1, h2]

/-- The MACD line over a prefix agrees with the full series past its
warm-up. -/
lemma macdLineAt_take (xs : List Rat) (cfg : StrategyConfig) (n i : Nat)
    (hf : cfg.macd_fast ≤ cfg.macd_slow) (hi : wMacd cfg ≤ i) (hn : i < n) :
    macdLineAt (xs.take n) cfg i = macdLineAt xs cfg i := by
  unfold macdLineAt
  have hagree : ∀ j, j ≤ i → priceAt (xs.take n) j = priceAt xs j := by
    intro j hj
    unfold priceAt
    exact take_getD xs n j 0 (by omega)
  have h1 : emaSeries cfg.macd_fast 0 (priceAt (xs.take n)) i =
      emaSeries cfg.macd_fast 0 (priceAt xs) i := by
    apply emaSeries_congr
    · unfold wMacd at hi; omega
    · exact fun j _ hj => hagree j hj
  have h2 : emaSeries cfg.macd_slow 0 (priceAt (xs.take n)) i =
      emaSeries cfg.macd_slow 0 (priceAt xs) i := by
    apply emaSeries_congr
    · unfold wMacd at hi; omega
    · exact fun j _ hj => hagree j hj
  rw [h1, h2]

/-- The MACD signal line over a prefix agrees with the full series past
its warm-up. -/
lemma signalLineAt_take (xs : List Rat) (cfg : StrategyConfig) (n i : Nat)
    (hf : cfg.macd_fast ≤ cfg.macd_slow) (hi : wSig cfg ≤ i) (hn : i < n) :
    signalLineAt (xs.take n) cfg i = signalLineAt xs cfg i := by
  unfold signalLineAt
  apply emaSeries_congr
  · unfold wSig at hi; omega
  · intro j hj1 hj2
    exact macdLineAt_take xs cfg n j hf (by unfold wMacd; omega) (by omega)

/-- The RSI over a prefix agrees with the full series past its warm-up. -/
lemma rsiAt_take (xs : List Rat) (p n i : Nat) (hi : p ≤ i) (hn : i < n) :
    rsiAt (xs.take n) p i = rsiAt xs p i := by
  have hg : wilder p (gainAt (xs.take n)) i = wilder p (gainAt xs) i := by
    apply wilder_congr p _ _ i hi
    intro j hj1 hj2
    unfold gainAt priceAt
    rw [take_getD xs n j 0 (by omega), take_getD xs n (j - 1) 0 (by omega)]
  have hl : wilder p (lossAt (xs.take n)) i = wilder p (lossAt xs) i := by
    apply wilder_congr p _ _ i hi
    intro j hj1 hj2
    unfold lossAt priceAt
    rw [take_getD xs n j 0 (by omega), take_getD xs n (j - 1) 0 (by omega)]
  unfold rsiAt
  rw [hg, hl]

/-- The trailing window over a prefix agrees with the full series. -/
lemma windowAt_take (xs : List Rat) (p n i : Nat) (h : i + 1 ≤ n) :
    windowAt (xs.take n) p i = windowAt xs p i := by
  unfold windowAt
  rw [List.take_take, min_eq_left h]

/-- The frame entry over a prefix of the closes agrees with the full
series at every index inside the prefix. -/
lemma entryAt_take (sq : Rat → Rat) (xs : List Rat) (cfg : StrategyConfig) (n i : Nat)
    (hf : cfg.macd_fast ≤ cfg.macd_slow) (hn : i < n) :
    entryAt sq (xs.take n) cfg i = entryAt sq xs cfg i := by
  have hwin : windowAt (xs.take n) cfg.bb_period i = windowAt xs cfg.bb_period i :=
    windowAt_take xs cfg.bb_period n i (by omega)
  have hsma : smaAt (xs.take n) cfg.bb_period i = smaAt xs cfg.bb_period i := by
    unfold smaAt
    rw [hwin]
  have hvar : varAt (xs.take n) cfg.bb_period i = varAt xs cfg.bb_period i := by
    unfold varAt
    rw [hwin, hsma]
  unfold entryAt
  simp only [IndicatorEntry.mk.injEq]
  refine ⟨?_, ?_, ?_, ?_, ?_, ?_, ?_⟩
  · by_cases h : wMacd cfg ≤ i
    · rw [if_pos h, if_pos h, macdLineAt_take xs cfg n i hf h hn]
    · rw [if_neg h, if_neg h]
  · by_cases h : wSig cfg ≤ i
    · rw [if_pos h, if_pos h, signalLineAt_take xs cfg n i hf h hn]
    · rw [if_neg h, if_neg h]
  · by_cases h : wSig cfg ≤ i
    · have hm : wMacd cfg ≤ i := by unfold wMacd; unfold wSig at h; omega
      rw [if_pos h, if_pos h, signalLineAt_take xs cfg n i hf h hn,
        macdLineAt_take xs cfg n i hf hm hn]
    · rw [if_neg h, if_neg h]
  · by_cases h : wRsi cfg ≤ i
    · rw [if_pos h, if_pos h, rsiAt_take xs cfg.rsi_period n i h hn]
    · rw [if_neg h, if_neg h]
  · by_cases h : wBB cfg ≤ i
    · rw [if_pos h, if_pos h]
      unfold bbUpperAt bbMiddleAt
      rw [hsma, hvar]
    · rw [if_neg h, if_neg h]
  · by_cases h : wBB cfg ≤ i
    · rw [if_pos h, if_pos h]
      unfold bbMiddleAt
      rw [hsma]
    · rw [if_neg h, if_neg h]
  · by_cases h : wBB cfg ≤ i
    · rw [if_pos h, if_pos h]
      unfold bbLowerAt bbMiddleAt
      rw [hsma, hvar]
    · rw [if_neg h, if_neg h]

/-- Indexing the frame built over a range of indices. -/
lemma mapRange_get (L : Nat) (f : Nat → IndicatorEntry) (i : Nat) :
    ((List.range L).map f).get? i = if i < L then some (f i) else none := by
  by_cases h : i < L
  · rw [if_pos h, List.get?_map, List.get?_range h]
    rfl
  · rw [if_neg h, List.get?_eq_none.mpr]
    rw [List.length_map, List.length_range]
    omega

/-- Claim C7: the Indicator Calculator does not look ahead: for every
prefix that is long enough to compute at all, every index inside the
prefix carries exactly the same indicator entry as in the computation
over the full candle sequence. -/
theorem indicator_no_lookahead (sq : Rat → Rat) (c : List Candle) (cfg : StrategyConfig)
    (n i : Nat) (hf : cfg.macd_fast ≤ cfg.macd_slow)
    (hn : minRequired cfg ≤ (c.take n).length) (hi : i < n) :
    (compute sq (c.take n) cfg).map (fun fr => fr.get? i)
      = (compute sq c cfg).map (fun fr => fr.get? i) := by
  have hlen : (c.take n).length ≤ c.length := by
    rw [List.length_take]
    exact min_le_right _ _
  unfold compute
  rw [if_neg (not_lt.mpr hn), if_neg (not_lt.mpr (hn.trans hlen))]
  simp only [Except.map, Except.ok.injEq]
  rw [mapRange_get, mapRange_get]
  by_cases h1 : i < (c.take n).length
  · have h2 : i < c.length := lt_of_lt_of_le h1 hlen
    rw [if_pos h1, if_pos h2]
    have hcl : closesOf (c.take n) = (closesOf c).take n := by
      unfold closesOf
      rw [List.map_take]
    rw [hcl, entryAt_take sq (closesOf c) cfg n i hf hi]
  · have h2 : ¬ i < c.length := by
      rw [List.length_take] at h1
      omega
    rw [if_neg h1, if_neg h2]

/-- Witness for claim C7 on a concrete six-candle sequence and its
five-candle prefix. -/
theorem indicator_no_lookahead_witness :
    (compute sqZ ((cW ++ [flatCd]).take 5) cfgW).map (fun fr => fr.get? 4)
      = (compute sqZ (cW ++ [flatCd]) cfgW).map (fun fr => fr.get? 4) :=
  indicator_no_lookahead sqZ (cW ++ [flatCd]) cfgW 5 4 (by decide) (by decide) (by decide)
